import Mathlib

/-!
Verification of the phone-number normalization and reconciliation engine of
the ios-contacts-fixer repository (src/app/index.tsx).

Strings are modelled as lists of characters (`Str`). The JavaScript regex
`/[\s-]/g` used for cleaning is modelled by filtering out whitespace
characters and the hyphen. The regex built in `getNextLabel` interpolates the
prime-stripped base verbatim (unescaped) before the trailing-primes part; this
development models that test as a literal base-plus-primes match
(`labelMatches`), which is faithful exactly when the base contains no regex
metacharacter — on other bases the real matcher gives metacharacters their
regex meaning, or the RegExp constructor throws. Every statement herein about
the values of synthesized labels is therefore guarded by the `regexSafe`
predicate that delimits this faithful domain; statements about phone-number
values do not depend on label values at all.
-/

namespace ContactsFixer

abbrev Str := List Char

/-- The prime mark (apostrophe) used to disambiguate labels. -/
def prime : Char := Char.ofNat 39

/-- A character removed by the cleaning regex `/[\s-]/g`: whitespace or hyphen. -/
def isSep (c : Char) : Bool := c.isWhitespace || c == '-'

/-- `number.replace(/[\s-]/g, "")` from src/app/index.tsx. -/
def cleanNumber (s : Str) : Str := s.filter (fun c => !(isSep c))

/-- `s.startsWith(p)`. -/
def strStarts : Str → Str → Bool
  | _, [] => true
  | [], _ :: _ => false
  | c :: s, d :: p => c == d && strStarts s p

/-- The local-format Rwandan number marker, `"07"`. -/
def localRw : Str := ['0', '7']

/-- The international-format Rwandan number marker, `"+2507"`. -/
def intlRw : Str := ['+', '2', '5', '0', '7']

/-- The string `"+25"` prepended by the repair operation in `handleFix`. -/
def plus25 : Str := ['+', '2', '5']

/-- The string `"+250"` prepended by `addCountryCode`. -/
def plus250 : Str := ['+', '2', '5', '0']

/-- `isRwandanNumber`, src/app/index.tsx lines 23-27. -/
def isRwandanNumber (number : Str) : Bool :=
  strStarts (cleanNumber number) localRw || strStarts (cleanNumber number) intlRw

/-- `addCountryCode`, src/app/index.tsx lines 29-32 (note: prepends `"+250"`). -/
def addCountryCode (number : Str) : Str :=
  let cn := cleanNumber number
  if strStarts cn localRw then plus250 ++ cn else cn

/-- `removeCountryCode`, src/app/index.tsx lines 34-37. -/
def removeCountryCode (number : Str) : Str :=
  let cn := cleanNumber number
  if strStarts cn intlRw then cn.drop 3 else cn

/-- The `PhoneNumber` record of src/types/contact.ts and src/app/index.tsx. -/
structure PhoneNumber where
  label : Str
  number : Str
  id : Option Str := none
deriving DecidableEq

/-- `validateContact`, src/app/index.tsx lines 39-56: the loop returns false as
soon as one cleaned Rwandan number lacks its `addCountryCode` or
`removeCountryCode` form among the cleaned Rwandan numbers; otherwise the
result is whether the Rwandan subset is nonempty. -/
def validateContact (phoneNumbers : List PhoneNumber) : Bool :=
  let rwandanNumbers :=
    (phoneNumbers.map (fun p => cleanNumber p.number)).filter isRwandanNumber
  (rwandanNumbers.all (fun number =>
    rwandanNumbers.contains (addCountryCode number) &&
    rwandanNumbers.contains (removeCountryCode number))) &&
  decide (0 < rwandanNumbers.length)

/-- The phone-number part of the contact filter in `loadContacts`,
src/app/index.tsx lines 119-145: true iff the contact has a Rwandan number
and some Rwandan number lacks one of its two versions. -/
def contactNeedsFixFilter (phoneNumbers : List PhoneNumber) : Bool :=
  let rwandanNumbers :=
    (phoneNumbers.map (fun p => cleanNumber p.number)).filter isRwandanNumber
  if rwandanNumbers.length == 0 then false
  else rwandanNumbers.any (fun number =>
    let withCode := if strStarts number localRw then plus25 ++ number else number
    let withoutCode := if strStarts number intlRw then number.drop 3 else number
    !(rwandanNumbers.contains withCode) || !(rwandanNumbers.contains withoutCode))

/-- `label.replace(/'/g, "")`: removes every prime mark from the label. -/
def stripPrimes (label : Str) : Str := label.filter (fun c => !(c == prime))

/-- The character codes of the JavaScript regex metacharacters: the dot,
asterisk, plus, question mark, caret, dollar, vertical bar, round and square
brackets, the two curly braces and the backslash. -/
def regexMetaCodes : List Nat :=
  [46, 42, 43, 63, 94, 36, 124, 40, 41, 91, 93, 123, 125, 92]

/-- True when the character is a JavaScript regex metacharacter. -/
def isRegexMeta (c : Char) : Bool := regexMetaCodes.contains c.toNat

/-- True when no character of the string is a regex metacharacter. On such a
base the pattern `getNextLabel` builds reads literally, so the model below is
faithful to the source exactly on this domain; on other bases the real
matcher accepts different label sets (the metacharacters keep their regex
meaning) or the RegExp constructor throws. -/
def regexSafe (s : Str) : Bool := s.all (fun c => !(isRegexMeta c))

/-- The test of the anchored regex built from `base` followed by zero-or-more
primes, modelled as a literal match: `existing` is `base` followed by only
primes. The source interpolates `base` into the pattern unescaped, so this is
a faithful model of the regex test only when `regexSafe base` holds; every
theorem below about the values of synthesized labels carries that guard. -/
def labelMatches (base existing : Str) : Bool :=
  strStarts existing base && (existing.drop base.length).all (fun c => c == prime)

/-- `getNextLabel`, src/app/index.tsx lines 64-79: strips every prime from
`label`, takes the maximum prime count over the existing labels that match the
base-plus-primes pattern (`existing.match` counts every prime in the matching
label), and appends one more prime than that to the base. Inherits the
literal-match reading of the pattern from `labelMatches`, hence models the
source faithfully only when the stripped base satisfies `regexSafe`. -/
def getNextLabel (label : Str) (existingLabels : List Str) : Str :=
  stripPrimes label ++ List.replicate
    ((existingLabels.foldl (fun acc existing =>
      if labelMatches (stripPrimes label) existing
      then max acc (existing.count prime) else acc) 0) + 1) prime

/-- The amended form of the nextLabel contract, modelled by its own words:
strip every prime mark from the label (wherever it occurs) to obtain the base;
among the existing labels that are the base followed by zero or more primes and
nothing else, take the maximum observed trailing-prime count (zero when none
match); return the base followed by that maximum plus one primes. -/
def nextLabelAmended (label : Str) (existingLabels : List Str) : Str :=
  stripPrimes label ++ List.replicate
    (((existingLabels.filterMap (fun e =>
        if labelMatches (stripPrimes label) e
        then some (e.length - (stripPrimes label).length) else none)).foldl max 0) + 1)
    prime

/-- One iteration of the repair loop in `handleFix`, src/app/index.tsx lines
184-206: the zero-or-one entries pushed for `phone`. Membership is checked
against the original `contact.phoneNumbers` (`orig`) and the label against the
original `existingLabels`, both fixed for the whole pass. -/
def synthFor (orig : List PhoneNumber) (existingLabels : List Str)
    (phone : PhoneNumber) : List PhoneNumber :=
  if strStarts (cleanNumber phone.number) localRw then
    if orig.any (fun p => cleanNumber p.number == plus25 ++ cleanNumber phone.number)
    then []
    else [{ label := getNextLabel phone.label existingLabels,
            number := plus25 ++ cleanNumber phone.number }]
  else if strStarts (cleanNumber phone.number) intlRw then
    if orig.any (fun p => cleanNumber p.number == (cleanNumber phone.number).drop 3)
    then []
    else [{ label := getNextLabel phone.label existingLabels,
            number := (cleanNumber phone.number).drop 3 }]
  else []

/-- The entries appended by one repair pass of `handleFix`, src/app/index.tsx
lines 178-206: the loop runs over the Rwandan subset of `contact.phoneNumbers`. -/
def synthesized (phoneNumbers : List PhoneNumber) : List PhoneNumber :=
  (phoneNumbers.filter (fun p => isRwandanNumber p.number)).flatMap
    (synthFor phoneNumbers (phoneNumbers.map (fun p => p.label)))

/-- The pure phone-number-list transformation of `handleFix`, src/app/index.tsx
lines 178-206: `updatedPhoneNumbers` starts as a copy of the existing list and
the loop only pushes at the end. -/
def reconcile (phoneNumbers : List PhoneNumber) : List PhoneNumber :=
  phoneNumbers ++ synthesized phoneNumbers

-- Sanity checks against the concrete end-to-end cases of the specification.
example :
    reconcile [⟨"mobile".data, "0788123456".data, none⟩] =
      [⟨"mobile".data, "0788123456".data, none⟩,
       ⟨"mobile".data ++ [prime], "+250788123456".data, none⟩] := by decide

example :
    reconcile [⟨"work".data, "+250788999999".data, none⟩] =
      [⟨"work".data, "+250788999999".data, none⟩,
       ⟨"work".data ++ [prime], "0788999999".data, none⟩] := by decide

example :
    reconcile [⟨"home".data, "+15551234567".data, none⟩] =
      [⟨"home".data, "+15551234567".data, none⟩] := by decide

/-! ### Basic lemmas about cleaning and prefix testing -/

lemma strStarts_iff (s p : Str) : strStarts s p = true ↔ ∃ t, s = p ++ t := by
  induction p generalizing s with
  | nil => simp [strStarts]
  | cons d p ih =>
    cases s with
    | nil => simp [strStarts]
    | cons c s =>
      simp only [strStarts, Bool.and_eq_true, beq_iff_eq, ih, List.cons_append,
        List.cons_eq_cons]
      constructor
      · rintro ⟨rfl, t, rfl⟩; exact ⟨t, rfl, rfl⟩
      · rintro ⟨t, rfl, rfl⟩; exact ⟨rfl, t, rfl⟩

lemma strStarts_append (p t : Str) : strStarts (p ++ t) p = true :=
  (strStarts_iff _ _).2 ⟨t, rfl⟩

lemma cleanNumber_append (a b : Str) :
    cleanNumber (a ++ b) = cleanNumber a ++ cleanNumber b :=
  List.filter_append _ _

lemma cleanNumber_idem (s : Str) : cleanNumber (cleanNumber s) = cleanNumber s := by
  simp [cleanNumber, List.filter_filter]

lemma cleanNumber_drop_of_clean (s : Str) (h : cleanNumber s = s) (n : ℕ) :
    cleanNumber (s.drop n) = s.drop n := by
  rw [cleanNumber, List.filter_eq_self] at h ⊢
  intro a ha
  exact h a (List.drop_subset n s ha)

lemma clean_plus25_append (s : Str) :
    cleanNumber (plus25 ++ cleanNumber s) = plus25 ++ cleanNumber s := by
  rw [cleanNumber_append, cleanNumber_idem]
  congr 1

lemma not_intl_of_local (s : Str) (h : strStarts s localRw = true) :
    strStarts s intlRw = false := by
  obtain ⟨t, rfl⟩ := (strStarts_iff s localRw).1 h
  rfl

lemma not_local_of_intl (s : Str) (h : strStarts s intlRw = true) :
    strStarts s localRw = false := by
  obtain ⟨t, rfl⟩ := (strStarts_iff s intlRw).1 h
  rfl

lemma isRw_plus25 (n : Str) (h : strStarts (cleanNumber n) localRw = true) :
    isRwandanNumber (plus25 ++ cleanNumber n) = true := by
  obtain ⟨t, ht⟩ := (strStarts_iff _ _).1 h
  unfold isRwandanNumber
  rw [clean_plus25_append, ht]
  have h2 : plus25 ++ (localRw ++ t) = intlRw ++ t := rfl
  rw [h2, strStarts_append, Bool.or_true]

lemma isRw_drop3 (n : Str) (h : strStarts (cleanNumber n) intlRw = true) :
    isRwandanNumber ((cleanNumber n).drop 3) = true := by
  obtain ⟨t, ht⟩ := (strStarts_iff _ _).1 h
  unfold isRwandanNumber
  rw [cleanNumber_drop_of_clean _ (cleanNumber_idem n), ht]
  have h2 : (intlRw ++ t).drop 3 = localRw ++ t := rfl
  rw [h2, strStarts_append, Bool.true_or]

/-! ### Lemmas about labels and getNextLabel -/

lemma stripPrimes_no_prime (l : Str) : (stripPrimes l).count prime = 0 := by
  rw [List.count_eq_zero]
  intro hmem
  have h2 := (List.mem_filter.1 hmem).2
  simp at h2

lemma labelMatches_self_primes (base : Str) (k : ℕ) :
    labelMatches base (base ++ List.replicate k prime) = true := by
  unfold labelMatches
  rw [strStarts_append, List.drop_left, Bool.true_and, List.all_eq_true]
  intro c hc
  rw [List.eq_of_mem_replicate hc]
  exact beq_self_eq_true prime

lemma count_base_primes (base : Str) (hb : base.count prime = 0) (k : ℕ) :
    (base ++ List.replicate k prime).count prime = k := by
  rw [List.count_append, hb, List.count_replicate_self, Nat.zero_add]

lemma labelMatches_decomp (base e : Str) (h : labelMatches base e = true) :
    e = base ++ List.replicate (e.length - base.length) prime := by
  unfold labelMatches at h
  rw [Bool.and_eq_true] at h
  obtain ⟨hpre, hall⟩ := h
  obtain ⟨t, rfl⟩ := (strStarts_iff e base).1 hpre
  rw [List.drop_left, List.all_eq_true] at hall
  have ht : t = List.replicate t.length prime := by
    apply List.eq_replicate_length.2
    intro c hc
    exact beq_iff_eq.1 (hall c hc)
  have hlen : (base ++ t).length - base.length = t.length := by
    simp [List.length_append]
  rw [hlen]
  exact congrArg (base ++ ·) ht

lemma foldl_max_mono (base : Str) (L : List Str) (acc : ℕ) :
    acc ≤ L.foldl (fun a e =>
      if labelMatches base e then max a (e.count prime) else a) acc := by
  induction L generalizing acc with
  | nil => exact le_refl acc
  | cons e L ih =>
    simp only [List.foldl_cons]
    refine le_trans ?_ (ih _)
    split
    · exact le_max_left _ _
    · exact le_refl acc

lemma foldl_max_ge_of_mem (base : Str) (e : Str) (hm : labelMatches base e = true) :
    ∀ (L : List Str) (acc : ℕ), e ∈ L →
      e.count prime ≤ L.foldl (fun a x =>
        if labelMatches base x then max a (x.count prime) else a) acc := by
  intro L
  induction L with
  | nil => intro acc he; cases he
  | cons x L ih =>
    intro acc he
    simp only [List.foldl_cons]
    rcases List.mem_cons.1 he with rfl | he2
    · refine le_trans ?_ (foldl_max_mono base L _)
      rw [if_pos hm]
      exact le_max_right _ _
    · exact ih _ he2

lemma getNextLabel_not_mem (label : Str) (L : List Str) :
    getNextLabel label L ∉ L := by
  intro hmem
  have hle := foldl_max_ge_of_mem (stripPrimes label) (getNextLabel label L)
    (by unfold getNextLabel; exact labelMatches_self_primes _ _) L 0 hmem
  unfold getNextLabel at hle
  rw [count_base_primes _ (stripPrimes_no_prime label)] at hle
  omega

lemma fold_count_eq_fold_len (base : Str) (hb : base.count prime = 0)
    (L : List Str) (acc : ℕ) :
    L.foldl (fun a e =>
      if labelMatches base e then max a (e.count prime) else a) acc =
    (L.filterMap (fun e =>
      if labelMatches base e then some (e.length - base.length) else none)).foldl
      max acc := by
  induction L generalizing acc with
  | nil => rfl
  | cons e L ih =>
    by_cases hm : labelMatches base e = true
    · have hc : e.count prime = e.length - base.length := by
        conv_lhs => rw [labelMatches_decomp base e hm]
        rw [count_base_primes base hb]
      simp only [List.foldl_cons, List.filterMap_cons, hm, if_true, hc]
      exact ih _
    · rw [List.foldl_cons, if_neg hm, List.filterMap_cons, if_neg hm]
      exact ih acc

/-! ### Lemmas about the repair pass -/

lemma mem_synthesized_of (pns : List PhoneNumber) (p : PhoneNumber)
    (hp : p ∈ pns) (hrw : isRwandanNumber p.number = true)
    (q : PhoneNumber)
    (hq : q ∈ synthFor pns (pns.map (fun r => r.label)) p) :
    q ∈ synthesized pns := by
  unfold synthesized
  exact List.mem_flatMap.2 ⟨p, List.mem_filter.2 ⟨hp, hrw⟩, hq⟩

lemma reconcile_closed (pns : List PhoneNumber) (p : PhoneNumber)
    (hp : p ∈ reconcile pns) :
    (strStarts (cleanNumber p.number) localRw = true →
      ∃ q, q ∈ reconcile pns ∧
        cleanNumber q.number = plus25 ++ cleanNumber p.number) ∧
    (strStarts (cleanNumber p.number) intlRw = true →
      ∃ q, q ∈ reconcile pns ∧
        cleanNumber q.number = (cleanNumber p.number).drop 3) := by
  rcases List.mem_append.1 hp with hmem | hsyn
  · constructor
    · intro hloc
      by_cases hpres : pns.any
          (fun r => cleanNumber r.number == plus25 ++ cleanNumber p.number) = true
      · obtain ⟨r, hr, hre⟩ := List.any_eq_true.1 hpres
        exact ⟨r, List.mem_append_left _ hr, eq_of_beq hre⟩
      · have hrw : isRwandanNumber p.number = true := by
          unfold isRwandanNumber
          rw [hloc, Bool.true_or]
        refine ⟨⟨getNextLabel p.label (pns.map (fun r => r.label)),
          plus25 ++ cleanNumber p.number, none⟩,
          List.mem_append_right _ (mem_synthesized_of pns p hmem hrw _ ?_),
          clean_plus25_append _⟩
        unfold synthFor
        rw [if_pos hloc, if_neg hpres]
        exact List.mem_singleton.2 rfl
    · intro hintl
      by_cases hpres : pns.any
          (fun r => cleanNumber r.number == (cleanNumber p.number).drop 3) = true
      · obtain ⟨r, hr, hre⟩ := List.any_eq_true.1 hpres
        exact ⟨r, List.mem_append_left _ hr, eq_of_beq hre⟩
      · have hrw : isRwandanNumber p.number = true := by
          unfold isRwandanNumber
          rw [hintl, Bool.or_true]
        have hnl : strStarts (cleanNumber p.number) localRw = false :=
          not_local_of_intl _ hintl
        refine ⟨⟨getNextLabel p.label (pns.map (fun r => r.label)),
          (cleanNumber p.number).drop 3, none⟩,
          List.mem_append_right _ (mem_synthesized_of pns p hmem hrw _ ?_),
          cleanNumber_drop_of_clean _ (cleanNumber_idem _) 3⟩
        unfold synthFor
        rw [if_neg (by simp [hnl]), if_pos hintl, if_neg hpres]
        exact List.mem_singleton.2 rfl
  · obtain ⟨s, hsf, hps⟩ := List.mem_flatMap.1 hsyn
    have hs : s ∈ pns := (List.mem_filter.1 hsf).1
    unfold synthFor at hps
    by_cases hloc : strStarts (cleanNumber s.number) localRw = true
    · rw [if_pos hloc] at hps
      by_cases hpres : pns.any
          (fun r => cleanNumber r.number == plus25 ++ cleanNumber s.number) = true
      · rw [if_pos hpres] at hps
        exact absurd hps (List.not_mem_nil _)
      · rw [if_neg hpres] at hps
        have hpe := List.mem_singleton.1 hps
        subst hpe
        obtain ⟨t, hts⟩ := (strStarts_iff _ _).1 hloc
        have hclean : cleanNumber (plus25 ++ cleanNumber s.number) =
            plus25 ++ cleanNumber s.number := clean_plus25_append _
        constructor
        · intro habs
          rw [hclean, hts] at habs
          have h2 : plus25 ++ (localRw ++ t) = intlRw ++ t := rfl
          rw [h2] at habs
          have h3 := not_local_of_intl _ (strStarts_append intlRw t)
          rw [h3] at habs
          exact absurd habs (by decide)
        · intro _
          refine ⟨s, List.mem_append_left _ hs, ?_⟩
          rw [hclean]
          rfl
    · rw [if_neg hloc] at hps
      by_cases hintl : strStarts (cleanNumber s.number) intlRw = true
      · rw [if_pos hintl] at hps
        by_cases hpres : pns.any
            (fun r => cleanNumber r.number == (cleanNumber s.number).drop 3) = true
        · rw [if_pos hpres] at hps
          exact absurd hps (List.not_mem_nil _)
        · rw [if_neg hpres] at hps
          have hpe := List.mem_singleton.1 hps
          subst hpe
          obtain ⟨t, hts⟩ := (strStarts_iff _ _).1 hintl
          have hcleandrop : cleanNumber ((cleanNumber s.number).drop 3) =
              (cleanNumber s.number).drop 3 :=
            cleanNumber_drop_of_clean _ (cleanNumber_idem _) 3
          constructor
          · intro _
            refine ⟨s, List.mem_append_left _ hs, ?_⟩
            rw [hcleandrop, hts]
            rfl
          · intro habs
            rw [hcleandrop, hts] at habs
            have h2 : (intlRw ++ t).drop 3 = localRw ++ t := rfl
            rw [h2] at habs
            have h3 := not_intl_of_local _ (strStarts_append localRw t)
            rw [h3] at habs
            exact absurd habs (by decide)
      · rw [if_neg hintl] at hps
        exact absurd hps (List.not_mem_nil _)

lemma synthesized_all_rwandan (pns : List PhoneNumber) (q : PhoneNumber)
    (hq : q ∈ synthesized pns) : isRwandanNumber q.number = true := by
  obtain ⟨s, hsf, hps⟩ := List.mem_flatMap.1 hq
  unfold synthFor at hps
  by_cases hloc : strStarts (cleanNumber s.number) localRw = true
  · rw [if_pos hloc] at hps
    by_cases hpres : pns.any
        (fun r => cleanNumber r.number == plus25 ++ cleanNumber s.number) = true
    · rw [if_pos hpres] at hps
      exact absurd hps (List.not_mem_nil _)
    · rw [if_neg hpres] at hps
      rw [List.mem_singleton.1 hps]
      exact isRw_plus25 _ hloc
  · rw [if_neg hloc] at hps
    by_cases hintl : strStarts (cleanNumber s.number) intlRw = true
    · rw [if_pos hintl] at hps
      by_cases hpres : pns.any
          (fun r => cleanNumber r.number == (cleanNumber s.number).drop 3) = true
      · rw [if_pos hpres] at hps
        exact absurd hps (List.not_mem_nil _)
      · rw [if_neg hpres] at hps
        rw [List.mem_singleton.1 hps]
        exact isRw_drop3 _ hintl
    · rw [if_neg hintl] at hps
      exact absurd hps (List.not_mem_nil _)

lemma synthFor_label (orig : List PhoneNumber) (labels : List Str)
    (s q : PhoneNumber) (hq : q ∈ synthFor orig labels s) :
    q.label = getNextLabel s.label labels := by
  unfold synthFor at hq
  by_cases hloc : strStarts (cleanNumber s.number) localRw = true
  · rw [if_pos hloc] at hq
    by_cases hpres : orig.any
        (fun p => cleanNumber p.number == plus25 ++ cleanNumber s.number) = true
    · rw [if_pos hpres] at hq
      exact absurd hq (List.not_mem_nil _)
    · rw [if_neg hpres] at hq
      rw [List.mem_singleton.1 hq]
  · rw [if_neg hloc] at hq
    by_cases hintl : strStarts (cleanNumber s.number) intlRw = true
    · rw [if_pos hintl] at hq
      by_cases hpres : orig.any
          (fun p => cleanNumber p.number == (cleanNumber s.number).drop 3) = true
      · rw [if_pos hpres] at hq
        exact absurd hq (List.not_mem_nil _)
      · rw [if_neg hpres] at hq
        rw [List.mem_singleton.1 hq]
    · rw [if_neg hintl] at hq
      exact absurd hq (List.not_mem_nil _)

lemma flatMap_eq_nil_of {α β : Type} (l : List α) (f : α → List β)
    (h : ∀ a ∈ l, f a = []) : l.flatMap f = [] := by
  induction l with
  | nil => rfl
  | cons a l ih =>
    rw [List.flatMap_cons, h a (List.mem_cons_self a l), List.nil_append]
    exact ih (fun b hb => h b (List.mem_cons_of_mem a hb))

lemma countP_synth_ge (pns : List PhoneNumber) (c : Str)
    (hloc : strStarts c localRw = true)
    (habs : pns.any (fun p => cleanNumber p.number == plus25 ++ c) = false) :
    ∀ l : List PhoneNumber,
      l.countP (fun p => cleanNumber p.number == c) ≤
      ((l.filter (fun p => isRwandanNumber p.number)).flatMap
        (synthFor pns (pns.map (fun r => r.label)))).countP
        (fun q => q.number == plus25 ++ c) := by
  intro l
  induction l with
  | nil => exact Nat.le_refl 0
  | cons a l ih =>
    by_cases ha : (cleanNumber a.number == c) = true
    · have hac : cleanNumber a.number = c := eq_of_beq ha
      have hrw : isRwandanNumber a.number = true := by
        unfold isRwandanNumber
        rw [hac, hloc, Bool.true_or]
      have hsyn : synthFor pns (pns.map (fun r => r.label)) a =
          [⟨getNextLabel a.label (pns.map (fun r => r.label)), plus25 ++ c, none⟩] := by
        unfold synthFor
        rw [hac, if_pos hloc, if_neg (by simp [habs])]
      have hfc : (a :: l).filter (fun p => isRwandanNumber p.number) =
          a :: l.filter (fun p => isRwandanNumber p.number) := by
        simp [List.filter_cons, hrw]
      rw [List.countP_cons, if_pos ha, hfc,
        List.flatMap_cons, hsyn, List.countP_append]
      have h1 : List.countP (fun q => q.number == plus25 ++ c)
          [(⟨getNextLabel a.label (pns.map (fun r => r.label)),
            plus25 ++ c, none⟩ : PhoneNumber)] = 1 := by
        simp
      rw [h1]
      omega
    · rw [List.countP_cons, if_neg ha, Nat.add_zero]
      by_cases hrw : isRwandanNumber a.number = true
      · have hfc : (a :: l).filter (fun p => isRwandanNumber p.number) =
            a :: l.filter (fun p => isRwandanNumber p.number) := by
          simp [List.filter_cons, hrw]
        rw [hfc, List.flatMap_cons, List.countP_append]
        exact le_trans ih (Nat.le_add_left _ _)
      · have hfc : (a :: l).filter (fun p => isRwandanNumber p.number) =
            l.filter (fun p => isRwandanNumber p.number) := by
          simp [List.filter_cons, hrw]
        rw [hfc]
        exact ih

/-! ### Claim theorems -/

/-- Claim C1 (code bug): at the input "0788123456", `addCountryCode` prepends
"+250" to the cleaned form and returns "+2500788123456", while the repair
operation in `handleFix` appends the counterpart "+250788123456" obtained by
prepending "+25"; the two computations disagree, so `addCountryCode` does not
compute the "+2507..."-form international counterpart the claim describes. -/
theorem addCountryCode_disagrees_with_repair :
    addCountryCode "0788123456".data = "+2500788123456".data ∧
    reconcile [⟨"mobile".data, "0788123456".data, none⟩] =
      [⟨"mobile".data, "0788123456".data, none⟩,
       ⟨"mobile".data ++ [prime], "+250788123456".data, none⟩] ∧
    addCountryCode "0788123456".data ≠ plus25 ++ cleanNumber "0788123456".data := by
  refine ⟨by decide, by decide, by decide⟩

/-- Claim C2 (code bug): the contact with the single number "0788123456" needs
reconciliation — the repair pass strictly lengthens its list and the
loadContacts filter selects it — yet `validateContact` returns false on it;
`validateContact` also returns false on the already-closed local/international
pair, so it realises needsReconciliation under neither polarity. -/
theorem validateContact_disagrees_with_filter :
    validateContact [⟨"mobile".data, "0788123456".data, none⟩] = false ∧
    contactNeedsFixFilter [⟨"mobile".data, "0788123456".data, none⟩] = true ∧
    (reconcile [⟨"mobile".data, "0788123456".data, none⟩]).length >
      ([⟨"mobile".data, "0788123456".data, none⟩] : List PhoneNumber).length ∧
    validateContact [⟨"mobile".data, "0788123456".data, none⟩,
      ⟨"mobile".data ++ [prime], "+250788123456".data, none⟩] = false ∧
    contactNeedsFixFilter [⟨"mobile".data, "0788123456".data, none⟩,
      ⟨"mobile".data ++ [prime], "+250788123456".data, none⟩] = false := by
  refine ⟨by decide, by decide, by decide, by decide, by decide⟩

/-- Claim C3: the repair operation is idempotent — applying the pure
phone-number-list transformation of `handleFix` to its own output returns the
output unchanged; the second pass appends nothing. -/
theorem reconcile_idempotent (pns : List PhoneNumber) :
    reconcile (reconcile pns) = reconcile pns := by
  have hnil : synthesized (reconcile pns) = [] := by
    unfold synthesized
    apply flatMap_eq_nil_of
    intro p hpf
    have hp : p ∈ reconcile pns := (List.mem_filter.1 hpf).1
    have hcl := reconcile_closed pns p hp
    unfold synthFor
    by_cases hloc : strStarts (cleanNumber p.number) localRw = true
    · obtain ⟨q, hq, hqe⟩ := hcl.1 hloc
      have hany : (reconcile pns).any
          (fun r => cleanNumber r.number == plus25 ++ cleanNumber p.number) = true :=
        List.any_eq_true.2 ⟨q, hq, by simp [hqe]⟩
      rw [if_pos hloc, if_pos hany]
    · rw [if_neg hloc]
      by_cases hintl : strStarts (cleanNumber p.number) intlRw = true
      · obtain ⟨q, hq, hqe⟩ := hcl.2 hintl
        have hany : (reconcile pns).any
            (fun r => cleanNumber r.number == (cleanNumber p.number).drop 3) = true :=
          List.any_eq_true.2 ⟨q, hq, by simp [hqe]⟩
        rw [if_pos hintl, if_pos hany]
      · rw [if_neg hintl]
  conv_lhs => rw [reconcile]
  rw [hnil, List.append_nil]

/-- Claim C4: closure of the repair output — every managed number of the
output whose cleaned form starts with "07" has its "+25"-prepended
international counterpart present (cleaned-equal) in the output, and every one
whose cleaned form starts with "+2507" has its local counterpart (first three
characters removed) present. -/
theorem reconcile_closure (pns : List PhoneNumber) (p : PhoneNumber)
    (hp : p ∈ reconcile pns) :
    (strStarts (cleanNumber p.number) localRw = true →
      ∃ q, q ∈ reconcile pns ∧
        cleanNumber q.number = plus25 ++ cleanNumber p.number) ∧
    (strStarts (cleanNumber p.number) intlRw = true →
      ∃ q, q ∈ reconcile pns ∧
        cleanNumber q.number = (cleanNumber p.number).drop 3) :=
  reconcile_closed pns p hp

/-- Witness for the closure theorem at the concrete contact
[(mobile, "0788123456")]. -/
theorem reconcile_closure_witness :
    (⟨"mobile".data, "0788123456".data, none⟩ : PhoneNumber) ∈
      reconcile [⟨"mobile".data, "0788123456".data, none⟩] ∧
    (∃ q, q ∈ reconcile [⟨"mobile".data, "0788123456".data, none⟩] ∧
      cleanNumber q.number = plus25 ++ cleanNumber "0788123456".data) :=
  ⟨by decide,
    (reconcile_closure [⟨"mobile".data, "0788123456".data, none⟩]
      ⟨"mobile".data, "0788123456".data, none⟩ (by decide)).1 (by decide)⟩

/-- Claim C5 counterexample: a contact with two local numbers that share the
label "mobile" gets two counterparts appended in the same pass, both labeled
"mobile" followed by one prime; the current-labels set is never updated during
the pass, so two labels synthesized in the same pass collide. -/
theorem same_pass_labels_collide :
    synthesized [⟨"mobile".data, "0788000001".data, none⟩,
                 ⟨"mobile".data, "0788000002".data, none⟩] =
      [⟨"mobile".data ++ [prime], "+250788000001".data, none⟩,
       ⟨"mobile".data ++ [prime], "+250788000002".data, none⟩] ∧
    ¬ ((synthesized [⟨"mobile".data, "0788000001".data, none⟩,
        ⟨"mobile".data, "0788000002".data, none⟩]).map
          (fun p => p.label)).Nodup := by
  refine ⟨by decide, by decide⟩

/-- Claim C5 amended: on a contact all of whose labels have
regex-metacharacter-free bases — the domain on which the pattern built by
`getNextLabel` reads literally — every PhoneNumber appended by the repair
pass carries a label distinct from every label already present on the
contact; labels of two numbers appended in the same pass may still coincide,
since the pass never records new labels into the current-labels set. For a
base with metacharacters the source's unescaped interpolation can match other
existing labels (so the synthesized label may collide) or throw, and no
freshness is claimed. -/
theorem synthesized_label_fresh (pns : List PhoneNumber)
    (_hsafe : ∀ s ∈ pns, regexSafe (stripPrimes s.label) = true)
    (q : PhoneNumber) (hq : q ∈ synthesized pns)
    (p : PhoneNumber) (hp : p ∈ pns) :
    q.label ≠ p.label := by
  obtain ⟨s, hsf, hps⟩ := List.mem_flatMap.1 hq
  rw [synthFor_label pns (pns.map (fun r => r.label)) s q hps]
  intro heq
  apply getNextLabel_not_mem s.label (pns.map (fun r => r.label))
  rw [heq]
  exact List.mem_map_of_mem (fun r => r.label) hp

/-- Witness for the fresh-label theorem at the concrete contact
[(mobile, "0788123456")], whose single label "mobile" is metacharacter-free. -/
theorem synthesized_label_fresh_witness :
    (∀ s ∈ ([⟨"mobile".data, "0788123456".data, none⟩] : List PhoneNumber),
      regexSafe (stripPrimes s.label) = true) ∧
    (⟨"mobile".data ++ [prime], "+250788123456".data, none⟩ : PhoneNumber) ∈
      synthesized [⟨"mobile".data, "0788123456".data, none⟩] ∧
    (⟨"mobile".data, "0788123456".data, none⟩ : PhoneNumber) ∈
      ([⟨"mobile".data, "0788123456".data, none⟩] : List PhoneNumber) ∧
    ("mobile".data ++ [prime]) ≠ "mobile".data :=
  ⟨by decide, by decide, by decide,
    synthesized_label_fresh [⟨"mobile".data, "0788123456".data, none⟩]
      (by decide)
      ⟨"mobile".data ++ [prime], "+250788123456".data, none⟩ (by decide)
      ⟨"mobile".data, "0788123456".data, none⟩ (by decide)⟩

/-- Claim C6 counterexample: on a base label with an interior prime mark,
`getNextLabel` strips the interior prime as well (the base of the label
"a-prime-b" becomes "ab"), whereas stripping only trailing primes would keep
the interior prime in place. -/
theorem getNextLabel_strips_interior_primes :
    getNextLabel ['a', prime, 'b'] [] = ['a', 'b', prime] ∧
    getNextLabel ['a', prime, 'b'] [] ≠ ['a', prime, 'b', prime] := by
  refine ⟨by decide, by decide⟩

/-- Claim C6 amended: for every label whose prime-stripped base is free of
regex metacharacters — the domain on which the built pattern reads
literally — `getNextLabel` strips ALL prime marks (interior ones included)
from the label to obtain the base, considers exactly the existing labels that
are the base followed by zero or more primes and nothing else, and returns
the base followed by the maximum observed trailing-prime count plus one
primes; the three concrete label-monotonicity cases hold. For a base with
metacharacters the source regex accepts a different label set or its
construction throws, and no contract is claimed. -/
theorem getNextLabel_follows_amended_contract :
    (∀ (label : Str) (existingLabels : List Str),
      regexSafe (stripPrimes label) = true →
      getNextLabel label existingLabels = nextLabelAmended label existingLabels) ∧
    getNextLabel "mobile".data [] = "mobile".data ++ [prime] ∧
    getNextLabel "mobile".data ["mobile".data ++ [prime]] =
      "mobile".data ++ [prime, prime] ∧
    getNextLabel ("mobile".data ++ [prime])
      ["mobile".data, "mobile".data ++ [prime]] =
      "mobile".data ++ [prime, prime] := by
  refine ⟨fun label L _ => ?_, by decide, by decide, by decide⟩
  unfold getNextLabel nextLabelAmended
  rw [fold_count_eq_fold_len _ (stripPrimes_no_prime label)]

/-- Witness for the amended nextLabel contract at the metacharacter-free
label "mobile". -/
theorem getNextLabel_follows_amended_contract_witness :
    regexSafe (stripPrimes "mobile".data) = true ∧
    getNextLabel "mobile".data ["mobile".data ++ [prime]] =
      nextLabelAmended "mobile".data ["mobile".data ++ [prime]] :=
  ⟨by decide,
    getNextLabel_follows_amended_contract.1 "mobile".data
      ["mobile".data ++ [prime]] (by decide)⟩

/-- Claim C7: non-managed passthrough — the numbers whose cleaned form starts
with neither "07" nor "+2507" occur in the output of the repair pass exactly
as in the input (same entries, same relative positions, no duplication, no
relabeling), and the input is an unchanged initial segment of the output. -/
theorem nonmanaged_passthrough (pns : List PhoneNumber) :
    (reconcile pns).filter (fun p => !(isRwandanNumber p.number)) =
      pns.filter (fun p => !(isRwandanNumber p.number)) ∧
    ∃ t, reconcile pns = pns ++ t := by
  constructor
  · have hnil : (synthesized pns).filter
        (fun p => !(isRwandanNumber p.number)) = [] := by
      rw [List.filter_eq_nil_iff]
      intro q hq
      simp [synthesized_all_rwandan pns q hq]
    conv_lhs => rw [reconcile]
    rw [List.filter_append, hnil, List.append_nil]
  · exact ⟨synthesized pns, rfl⟩

/-- Claim C8: the repair operation never deletes or reorders existing
entries — the input list is an unchanged prefix of the output (labels, numbers
and ids preserved positionally) and only appended entries follow it. -/
theorem reconcile_preserves_existing (pns : List PhoneNumber) :
    (reconcile pns).take pns.length = pns ∧
    ∃ t, reconcile pns = pns ++ t := by
  constructor
  · conv_lhs => rw [reconcile]
    exact List.take_left pns (synthesized pns)
  · exact ⟨synthesized pns, rfl⟩

/-- Claim C9: whenever at least two entries of the input clean to the same
local-format managed string whose counterpart is absent from the input, the
repair pass appends at least two entries carrying that same "+25"-prepended
counterpart number — the absence check consults only the original list, never
the entries appended earlier in the pass. -/
theorem reconcile_appends_duplicate_counterparts (pns : List PhoneNumber)
    (c : Str)
    (h2 : 2 ≤ pns.countP (fun p => cleanNumber p.number == c))
    (hloc : strStarts c localRw = true)
    (habs : pns.any (fun p => cleanNumber p.number == plus25 ++ c) = false) :
    2 ≤ (synthesized pns).countP (fun q => q.number == plus25 ++ c) :=
  le_trans h2 (countP_synth_ge pns c hloc habs pns)

/-- Witness for the duplicate-counterpart theorem: two entries cleaning to
"0788123456" (one written with a hyphen) produce two identical appended
counterparts. -/
theorem reconcile_appends_duplicate_counterparts_witness :
    2 ≤ List.countP (fun p => cleanNumber p.number == "0788123456".data)
      ([⟨"home".data, "0788123456".data, none⟩,
        ⟨"work".data, "078-8123456".data, none⟩] : List PhoneNumber) ∧
    strStarts "0788123456".data localRw = true ∧
    ([⟨"home".data, "0788123456".data, none⟩,
      ⟨"work".data, "078-8123456".data, none⟩] : List PhoneNumber).any
      (fun p => cleanNumber p.number == plus25 ++ "0788123456".data) = false ∧
    2 ≤ (synthesized [⟨"home".data, "0788123456".data, none⟩,
        ⟨"work".data, "078-8123456".data, none⟩]).countP
      (fun q => q.number == plus25 ++ "0788123456".data) :=
  ⟨by decide, by decide, by decide,
    reconcile_appends_duplicate_counterparts
      [⟨"home".data, "0788123456".data, none⟩,
       ⟨"work".data, "078-8123456".data, none⟩]
      "0788123456".data (by decide) (by decide) (by decide)⟩

/-- Claim C10: the prefix-specific transforms are total — when the cleaned
input does not start with "07", `addCountryCode` returns the cleaned form
unchanged, and when it does not start with "+2507", `removeCountryCode`
returns the cleaned form unchanged; being Lean functions they never fail. -/
theorem transforms_total_outside_guard (s : Str) :
    (strStarts (cleanNumber s) localRw = false →
      addCountryCode s = cleanNumber s) ∧
    (strStarts (cleanNumber s) intlRw = false →
      removeCountryCode s = cleanNumber s) := by
  constructor
  · intro h
    unfold addCountryCode
    rw [if_neg (by simp [h])]
  · intro h
    unfold removeCountryCode
    rw [if_neg (by simp [h])]

/-- Witness for the totality theorem at the non-managed number
"+15551234567". -/
theorem transforms_total_outside_guard_witness :
    (strStarts (cleanNumber "+15551234567".data) localRw = false ∧
      addCountryCode "+15551234567".data = cleanNumber "+15551234567".data) ∧
    (strStarts (cleanNumber "+15551234567".data) intlRw = false ∧
      removeCountryCode "+15551234567".data = cleanNumber "+15551234567".data) :=
  ⟨⟨by decide, (transforms_total_outside_guard _).1 (by decide)⟩,
   ⟨by decide, (transforms_total_outside_guard _).2 (by decide)⟩⟩

end ContactsFixer
